import Mathlib

/-!
Verification of the batch orchestration engine of the youtube-playlist-downloader
repository.  The definitions below are a shallow embedding of `src/downloader.js`
(class `downloader`: `extractVideoId`, `sanitizeFilename`, `getVideoInfo`,
`downloadMp3`, `downloadFromFile`) and of the range validation in
`src/index.js` (`getPlaylistDetails`).

External collaborators (filesystem, the `ytdl` metadata / stream provider and
the `ffmpeg` transcoder) are modelled as explicit oracle parameters; everything
the repository's own code computes is translated directly from the source.
-/

namespace YtDl

/-! ## JavaScript string primitives

`downloadFromFile` uses `String.prototype.trim`, `split('\n')`,
`startsWith('#')` and `includes(...)`.  They are re-implemented here on
`List Char` so that every definition is executable by the kernel. -/

/-- The JavaScript `\s` / `trim` whitespace set (WhiteSpace ∪ LineTerminator). -/
def jsWs (ch : Char) : Bool :=
  ch == ' ' || ch == '\t' || ch == '\n' || ch == '\r' ||
  ch == Char.ofNat 0x0b || ch == Char.ofNat 0x0c ||
  ch == Char.ofNat 0xa0 || ch == Char.ofNat 0x1680 ||
  (0x2000 ≤ ch.toNat && ch.toNat ≤ 0x200a) ||
  ch == Char.ofNat 0x2028 || ch == Char.ofNat 0x2029 ||
  ch == Char.ofNat 0x202f || ch == Char.ofNat 0x205f ||
  ch == Char.ofNat 0x3000 || ch == Char.ofNat 0xfeff

/-- JavaScript `String.prototype.trim`. -/
def jsTrim (s : String) : String :=
  String.mk (((s.toList.dropWhile jsWs).reverse.dropWhile jsWs).reverse)

/-- JavaScript `content.split('\n')` on the character list. -/
def splitLines : List Char → List (List Char)
  | [] => [[]]
  | c :: rest =>
    if c == '\n' then [] :: splitLines rest
    else
      match splitLines rest with
      | [] => [[c]]
      | l :: ls => (c :: l) :: ls

/-- List prefix test (Bool), used for `startsWith` and `includes`. -/
def isPre : List Char → List Char → Bool
  | [], _ => true
  | _ :: _, [] => false
  | a :: as, b :: bs => a == b && isPre as bs

/-- JavaScript `hay.includes(needle)` (substring containment). -/
def containsSub (needle : List Char) : List Char → Bool
  | [] => needle.isEmpty
  | h :: t => isPre needle (h :: t) || containsSub needle t

/-- JavaScript `line.startsWith('#')`. -/
def startsWithPound (line : String) : Bool :=
  match line.toList with
  | [] => false
  | c :: _ => c == '#'

/-- The validity predicate of `downloadFromFile` (src/downloader.js:155-157):
`line.includes('youtube.com') || line.includes('youtu.be')`. -/
def isYtUrl (line : String) : Bool :=
  containsSub "youtube.com".toList line.toList ||
  containsSub "youtu.be".toList line.toList

/-! ## Item source parsing (src/downloader.js:150-161) -/

/-- The URL-list parser of `downloadFromFile`:
`content.split('\n').map(trim).filter(line && !line.startsWith('#'))
.filter(line.includes('youtube.com') || line.includes('youtu.be'))`. -/
def parseUrls (content : String) : List String :=
  ((((splitLines content.toList).map (fun l => jsTrim (String.mk l))).filter
      (fun line => !(line == "") && !startsWithPound line)).filter
    (fun line => isYtUrl line))

/-! ## Index-range selection (src/downloader.js:163-169)

`endIndex` at the `downloadFromFile` interface is EXCLUSIVE: both callers
(`main` in downloader.js:277 and `getPlaylistDetails` in index.js:35) add 1 to
the user-supplied inclusive end index.  `endIndex === Infinity` is modelled as
`Option.none`. -/

/-- JavaScript `Array.prototype.slice` relative-index computation. -/
def jsRel (len : Nat) (i : Int) : Nat :=
  if i < 0 then ((len : Int) + i).toNat else min i.toNat len

/-- JavaScript `l.slice(s, e)`. -/
def jsSlice (l : List α) (s e : Int) : List α :=
  (l.take (jsRel l.length e)).drop (jsRel l.length s)

/-- Range application of `downloadFromFile`:
`startIdx = Math.max(0, startIndex)`;
`endIdx = Math.min(urls.length, endIndex === Infinity ? urls.length : endIndex)`;
`urls.slice(startIdx, endIdx)`. -/
def applyRange (urls : List α) (startIndex : Int) (endIndex : Option Int) : List α :=
  jsSlice urls (max 0 startIndex)
    (min (urls.length : Int) (match endIndex with | none => (urls.length : Int) | some e => e))

/-! ## Range validation of the interactive entry point (src/index.js:30-45)

`getPlaylistDetails` reads an inclusive end index, increments it
(`endIndex++`, index.js:35) and then rejects the run when
`startIndex < 0 || endIndex < startIndex` (index.js:42-45), before any
download is started. -/

/-- `true` iff `getPlaylistDetails` accepts the pair
(start index, INCLUSIVE end index). -/
def validateRange (startIndex endIndexInc : Int) : Bool :=
  let endIndex := endIndexInc + 1
  !(decide (startIndex < 0) || decide (endIndex < startIndex))

/-! ## Batch scheduler (src/downloader.js:178-238)

Each awaited step is recorded in an event trace: `Ev.item u` is the complete
processing of one URL (`await this.downloadMp3(url)` resp. the settling of its
promise inside `Promise.all`), `Ev.sleep d` is
`await new Promise(r => setTimeout(r, delay))`.

The per-item pipeline is passed as an oracle
`proc : String → Except String σ`: a fulfilled `downloadMp3` promise carrying
a result object of type `σ`, or a rejection carrying `error.message`. -/

inductive Ev where
  | item (url : String)
  | sleep (ms : Nat)
deriving DecidableEq

instance exceptDecEq {ε α : Type} [DecidableEq ε] [DecidableEq α] :
    DecidableEq (Except ε α) := fun a b =>
  match a, b with
  | .ok x, .ok y =>
    if h : x = y then isTrue (by rw [h]) else isFalse (fun hh => h (Except.ok.inj hh))
  | .error x, .error y =>
    if h : x = y then isTrue (by rw [h]) else isFalse (fun hh => h (Except.error.inj hh))
  | .ok _, .error _ => isFalse (fun hh => Except.noConfusion hh)
  | .error _, .ok _ => isFalse (fun hh => Except.noConfusion hh)

def itemOf : Ev → Option String
  | .item u => some u
  | .sleep _ => none

def isSleep : Ev → Bool
  | .sleep _ => true
  | .item _ => false

def sleepMs : Ev → Nat
  | .sleep m => m
  | .item _ => 0

def sleepCount (tr : List Ev) : Nat := tr.countP isSleep

def sleepTotal (tr : List Ev) : Nat := (tr.map sleepMs).sum

/-- Outcome of one scheduler run: the `results` / `errors` arrays and the
event trace.  `results` entries are the JS records `{url, ...result}` /
`{url, error}` (the latter only reach `results` through the chunked branch,
see `recHasError`); `errors` entries are `{url, error: message}`. -/
structure RunOut (σ : Type) where
  results : List (String × Except String σ)
  errors : List (String × String)
  trace : List Ev
deriving DecidableEq

/-- Sequential branch (src/downloader.js:181-202): process in order; on
fulfilment push `{url, ...result}` and, when not the last item and
`delay > 0`, sleep; on rejection push `{url, error}` (the catch block skips
the sleep). -/
def seqRun (proc : String → Except String σ) (delay : Nat) : List String → RunOut σ
  | [] => ⟨[], [], []⟩
  | u :: rest =>
    let tail := seqRun proc delay rest
    match proc u with
    | .ok s =>
      let ds := if !rest.isEmpty && decide (0 < delay) then [Ev.sleep delay] else []
      ⟨(u, .ok s) :: tail.results, tail.errors, Ev.item u :: (ds ++ tail.trace)⟩
    | .error m => ⟨tail.results, (u, m) :: tail.errors, Ev.item u :: tail.trace⟩

/-- JS truthiness of `result.error` in the chunked branch
(src/downloader.js:216): the field is absent on fulfilled records, and an
empty-string message is falsy. -/
def recHasError : String × Except String σ → Bool
  | (_, .error m) => !(m == "")
  | (_, .ok _) => false

/-- Message stored in an error record (only applied when `recHasError`). -/
def errMsgOf : String × Except String σ → String
  | (_, .error m) => m
  | (_, .ok _) => ""

/-- The `chunkResults.forEach` classification (src/downloader.js:215-224):
records with a truthy `error` are pushed to `errors`, all others to
`results`. -/
def classify : List (String × Except String σ) →
    List (String × Except String σ) × List (String × String)
  | [] => ([], [])
  | r :: rest =>
    let tail := classify rest
    if recHasError r then (tail.1, (r.1, errMsgOf r) :: tail.2)
    else (r :: tail.1, tail.2)

/-- Chunked branch (src/downloader.js:205-230): `for (i = 0; i < len; i += c)`
take `slice(i, i + c)`, settle the whole chunk (`Promise.all`), classify, and
sleep when `i + c < len && delay > 0`.  The source loop does not terminate
for `concurrent = 0`; the guard returns the empty outcome there, and every
theorem about this branch assumes `0 < c`. -/
def chunkedRun (proc : String → Except String σ) (delay c : Nat) (l : List String) :
    RunOut σ :=
  if h : c = 0 ∨ l = [] then ⟨[], [], []⟩
  else
    let chunk := l.take c
    let cls := classify (chunk.map (fun u => (u, proc u)))
    let ds := if decide (c < l.length) && decide (0 < delay) then [Ev.sleep delay] else []
    let tail := chunkedRun proc delay c (l.drop c)
    ⟨cls.1 ++ tail.results, cls.2 ++ tail.errors, chunk.map Ev.item ++ ds ++ tail.trace⟩
termination_by l.length
decreasing_by
  push_neg at h
  simp only [List.length_drop]
  exact Nat.sub_lt (List.length_pos.mpr h.2) (Nat.pos_of_ne_zero h.1)

/-- The chunk decomposition performed by the chunked loop. -/
def chunkify (c : Nat) (l : List α) : List (List α) :=
  if h : c = 0 ∨ l.isEmpty then [] else l.take c :: chunkify c (l.drop c)
termination_by l.length
decreasing_by
  push_neg at h
  simp only [List.length_drop]
  refine Nat.sub_lt (List.length_pos.mpr ?_) (Nat.pos_of_ne_zero h.1)
  simpa [List.isEmpty_iff] using h.2

/-- Chunk sizes as a function of the list length only. -/
def natChunkSizes (c n : Nat) : List Nat :=
  if h : c = 0 ∨ n = 0 then [] else min c n :: natChunkSizes c (n - c)
termination_by n
decreasing_by
  push_neg at h
  exact Nat.sub_lt (Nat.pos_of_ne_zero h.2) (Nat.pos_of_ne_zero h.1)

/-- Specification-shaped trace: all items of a chunk, then (between chunks
only, and only for a positive delay) one sleep. -/
def chunkTraceSpec (delay : Nat) : List (List String) → List Ev
  | [] => []
  | [ch] => ch.map Ev.item
  | ch :: rest =>
    ch.map Ev.item ++ (if 0 < delay then [Ev.sleep delay] else []) ++
      chunkTraceSpec delay rest

/-! ## `extractVideoId` (src/downloader.js:27-32)

The regular expression
`(?:youtube\.com\/(?:[^\/]+\/.+\/|(?:v|e(?:mbed)?)\/|.*[?&]v=)|youtu\.be\/)([^"&?\/\s]{11})`
is executed with JavaScript semantics: leftmost match position, alternatives
tried left to right, greedy quantifiers with backtracking; the returned value
is capture group 1.  The combinators below implement exactly that search
order. -/

/-- Character class `[^"&?\/\s]` of the capture group. -/
def capChar (ch : Char) : Bool :=
  !(ch == '"' || ch == '&' || ch == '?' || ch == '/' || jsWs ch)

/-- JavaScript `.` (anything but a line terminator). -/
def dotChar (ch : Char) : Bool :=
  !(ch == '\n' || ch == '\r' || ch == Char.ofNat 0x2028 || ch == Char.ofNat 0x2029)

/-- Capture group `([^"&?\/\s]{11})`. -/
def tryCapture (s : List Char) : Option (List Char) :=
  let c := s.take 11
  if c.length == 11 && c.all capChar then some c else none

/-- Match a literal, then continue. -/
def litP (lit : List Char) (cont : List Char → Option α) (s : List Char) : Option α :=
  if isPre lit s then cont (s.drop lit.length) else none

/-- Match one character of a class, then continue. -/
def classP (p : Char → Bool) (cont : List Char → Option α) : List Char → Option α
  | [] => none
  | c :: rest => if p c then cont rest else none

/-- Try the continuation after consuming `n, n-1, ..., 1` class characters
(greedy backtracking for `p+`; `n` starts at the maximal run length). -/
def tryDesc (cont : List Char → Option α) (s : List Char) : Nat → Option α
  | 0 => none
  | n + 1 => (cont (s.drop (n + 1))).orElse (fun _ => tryDesc cont s n)

/-- Greedy `p+` followed by `cont`. -/
def greedyPlus (p : Char → Bool) (cont : List Char → Option α) (s : List Char) :
    Option α :=
  tryDesc cont s (s.takeWhile p).length

/-- Greedy `p*` followed by `cont` (also tries the empty match). -/
def greedyStar (p : Char → Bool) (cont : List Char → Option α) (s : List Char) :
    Option α :=
  (tryDesc cont s (s.takeWhile p).length).orElse (fun _ => cont s)

/-- The alternation after `youtube.com/`:
`[^\/]+\/.+\/ | (?:v|e(?:mbed)?)\/ | .*[?&]v=`, each followed by the capture. -/
def afterYtc (s : List Char) : Option (List Char) :=
  (greedyPlus (fun ch => !(ch == '/'))
      (litP ['/'] (greedyPlus dotChar (litP ['/'] tryCapture))) s).orElse fun _ =>
  (litP ['v', '/'] tryCapture s).orElse fun _ =>
  (litP ['e', 'm', 'b', 'e', 'd', '/'] tryCapture s).orElse fun _ =>
  (litP ['e', '/'] tryCapture s).orElse fun _ =>
  greedyStar dotChar
    (classP (fun ch => ch == '?' || ch == '&') (litP ['v', '='] tryCapture)) s

/-- Both top-level alternatives at one start position. -/
def matchHere (s : List Char) : Option (List Char) :=
  (litP "youtube.com/".toList afterYtc s).orElse fun _ =>
    litP "youtu.be/".toList tryCapture s

/-- Leftmost-position search of `String.prototype.match`. -/
def findMatch : List Char → Option (List Char)
  | [] => none
  | c :: rest => (matchHere (c :: rest)).orElse fun _ => findMatch rest

/-- `extractVideoId(url)`: `url.match(regex)?.[1] || null`. -/
def extractVideoId (url : String) : Option String :=
  (findMatch url.toList).map String.mk

/-! ## `sanitizeFilename` (src/downloader.js:37-42) -/

/-- The filesystem-unsafe class `[<>:"/\\|?*]`. -/
def badFsChar (ch : Char) : Bool :=
  ch == '<' || ch == '>' || ch == ':' || ch == '"' || ch == '/' ||
  ch == '\\' || ch == '|' || ch == '?' || ch == '*'

/-- `replace(/\s+/g, ' ')`: collapse every whitespace run to one space.  The
flag records whether the previous character belonged to a run. -/
def collapseWsAux : Bool → List Char → List Char
  | _, [] => []
  | prevWs, c :: rest =>
    if jsWs c then (if prevWs then [] else [' ']) ++ collapseWsAux true rest
    else c :: collapseWsAux false rest

/-- `filename.replace(/[<>:"/\\|?*]/g, '').replace(/\s+/g, ' ').trim()`. -/
def sanitizeFilename (filename : String) : String :=
  jsTrim (String.mk (collapseWsAux false (filename.toList.filter (fun ch => !badFsChar ch))))

/-! ## `getVideoInfo` and `downloadMp3` (src/downloader.js:47-132)

External collaborators are oracles in a `World`:
`fs` is `fs.existsSync`, `meta` is `ytdl.getInfo` (its `videoDetails`), and
`encode` is the combined `ytdl(videoId, ...)` stream plus `ffmpeg` conversion
for a video id and output path.  Every oracle interaction of a `downloadMp3`
call is recorded as an `Effect`; `metaFetch` and `streamFetch` are the
network requests. -/

structure RawInfo where
  title : String
  lengthSeconds : Nat
  authorName : String
deriving DecidableEq

structure VideoInfo where
  title : String
  filename : String
  duration : Nat
  author : String
deriving DecidableEq

structure World where
  fs : String → Bool
  meta : String → Except String RawInfo
  encode : String → String → Except String Unit

inductive Effect where
  | metaFetch (videoId : String)
  | existsCheck (path : String)
  | streamFetch (videoId : String)
  | transcode (path : String)
  | fileWrite (path : String)
deriving DecidableEq

def isNetworkFetch : Effect → Bool
  | .metaFetch _ => true
  | .streamFetch _ => true
  | _ => false

def isStreamOrTranscode : Effect → Bool
  | .streamFetch _ => true
  | .transcode _ => true
  | _ => false

def writesPath (p : String) : Effect → Bool
  | .fileWrite q => q == p
  | _ => false

/-- `getVideoInfo(videoId)`: on success the title, the sanitized filename with
the `.mp3` extension, duration and author; on failure
`Failed to get video info: <message>`. -/
def getVideoInfo (meta : String → Except String RawInfo) (videoId : String) :
    Except String VideoInfo :=
  match meta videoId with
  | .error m => .error ("Failed to get video info: " ++ m)
  | .ok d =>
    .ok { title := d.title, filename := sanitizeFilename d.title ++ ".mp3",
          duration := d.lengthSeconds, author := d.authorName }

/-- Result object of a fulfilled `downloadMp3` promise (both shapes of
src/downloader.js:85-90 and 117-122, with absent fields as `none`/`false`). -/
structure DlResult where
  success : Bool
  filename : String
  path : Option String
  title : Option String
  message : Option String
  skipped : Bool
deriving DecidableEq

/-- `downloadMp3(url, customName)` together with its effect trace.
`path.join(outputDir, filename)` is modelled as separator concatenation. -/
def downloadMp3 (w : World) (outputDir : String) (url : String)
    (customName : Option String) : Except String DlResult × List Effect :=
  match extractVideoId url with
  | none => (.error ("Invalid YouTube URL: " ++ url), [])
  | some videoId =>
    match getVideoInfo w.meta videoId with
    | .error m => (.error m, [.metaFetch videoId])
    | .ok videoInfo =>
      let filename := match customName with
        | some n => sanitizeFilename n ++ ".mp3"
        | none => videoInfo.filename
      let outputPath := outputDir ++ "/" ++ filename
      if w.fs outputPath then
        (.ok { success := true, filename := filename, path := none, title := none,
               message := some "File already exists", skipped := true },
         [.metaFetch videoId, .existsCheck outputPath])
      else
        match w.encode videoId outputPath with
        | .ok _ =>
          (.ok { success := true, filename := filename, path := some outputPath,
                 title := some videoInfo.title, message := none, skipped := false },
           [.metaFetch videoId, .existsCheck outputPath, .streamFetch videoId,
            .transcode outputPath, .fileWrite outputPath])
        | .error m =>
          (.error ("ffmpeg error: " ++ m),
           [.metaFetch videoId, .existsCheck outputPath, .streamFetch videoId,
            .transcode outputPath])

/-- The world after a run: paths written by the effects now exist. -/
def worldAfter (w : World) (effs : List Effect) : World :=
  { w with fs := fun p => w.fs p || effs.any (writesPath p) }

/-! ## `downloadFromFile` (src/downloader.js:137-239) -/

/-- Options object of `downloadFromFile`; `endIndex = none` models the
`Infinity` default. -/
structure DlOpts where
  concurrent : Nat := 1
  delay : Nat := 15000
  startIndex : Int := 0
  endIndex : Option Int := none

/-- The returned report `{results, errors, total, fullListTotal}` plus the
instrumentation trace of the run. -/
structure BatchReport (σ : Type) where
  results : List (String × Except String σ)
  errors : List (String × String)
  total : Nat
  fullListTotal : Nat
  trace : List Ev
deriving DecidableEq

/-- `downloadFromFile(filePath, options)`; `fsys` is the filesystem oracle
(`fs.existsSync` + `fs.readFileSync`), `proc` the per-item pipeline oracle. -/
def downloadFromFile (σ : Type) (fsys : String → Option String)
    (proc : String → Except String σ) (filePath : String) (opts : DlOpts) :
    Except String (BatchReport σ) :=
  match fsys filePath with
  | none => .error ("File not found: " ++ filePath)
  | some content =>
    let urls := parseUrls content
    if urls.isEmpty then .error "No valid YouTube URLs found in file"
    else
      let urlsToProcess := applyRange urls opts.startIndex opts.endIndex
      let out := if opts.concurrent = 1 then seqRun proc opts.delay urlsToProcess
        else chunkedRun proc opts.delay opts.concurrent urlsToProcess
      .ok { results := out.results, errors := out.errors,
            total := urlsToProcess.length, fullListTotal := urls.length,
            trace := out.trace }

/-! ## Infrastructure lemmas about the two scheduler branches -/

def exOk : Except ε α → Bool
  | .ok _ => true
  | .error _ => false

/-- Per-item contribution to `results` in the sequential branch. -/
def okSel (proc : String → Except String σ) (u : String) :
    Option (String × Except String σ) :=
  match proc u with
  | .ok s => some (u, .ok s)
  | .error _ => none

/-- Per-item contribution to `errors` in the sequential branch. -/
def errSel (proc : String → Except String σ) (u : String) : Option (String × String) :=
  match proc u with
  | .error m => some (u, m)
  | .ok _ => none

/-- Per-item contribution to `results` in the chunked branch (records with a
falsy `error` field, including rejections with an empty message). -/
def cOkSel (proc : String → Except String σ) (u : String) :
    Option (String × Except String σ) :=
  if recHasError (u, proc u) then none else some (u, proc u)

/-- Per-item contribution to `errors` in the chunked branch. -/
def cErrSel (proc : String → Except String σ) (u : String) : Option (String × String) :=
  if recHasError (u, proc u) then some (u, errMsgOf (u, proc u)) else none

theorem seqRun_results (proc : String → Except String σ) (d : Nat) :
    ∀ l : List String, (seqRun proc d l).results = l.filterMap (okSel proc)
  | [] => rfl
  | u :: rest => by
    have ih := seqRun_results proc d rest
    cases h : proc u with
    | ok s => simp [seqRun, h, okSel, List.filterMap_cons, ih]
    | error m => simp [seqRun, h, okSel, List.filterMap_cons, ih]

theorem seqRun_errors (proc : String → Except String σ) (d : Nat) :
    ∀ l : List String, (seqRun proc d l).errors = l.filterMap (errSel proc)
  | [] => rfl
  | u :: rest => by
    have ih := seqRun_errors proc d rest
    cases h : proc u with
    | ok s => simp [seqRun, h, errSel, List.filterMap_cons, ih]
    | error m => simp [seqRun, h, errSel, List.filterMap_cons, ih]

theorem seqRun_items (proc : String → Except String σ) (d : Nat) :
    ∀ l : List String, (seqRun proc d l).trace.filterMap itemOf = l
  | [] => rfl
  | u :: rest => by
    have ih := seqRun_items proc d rest
    cases h : proc u with
    | ok s =>
      simp only [seqRun, h]
      split <;> simp [itemOf, List.filterMap_cons, List.filterMap_append, ih]
    | error m => simp [seqRun, h, itemOf, List.filterMap_cons, ih]

theorem seqRun_cons_ok (proc : String → Except String σ) (d : Nat) (u : String) (s : σ)
    (rest : List String) (h : proc u = .ok s) :
    seqRun proc d (u :: rest) =
      ⟨(u, .ok s) :: (seqRun proc d rest).results, (seqRun proc d rest).errors,
        Ev.item u ::
          ((if !rest.isEmpty && decide (0 < d) then [Ev.sleep d] else []) ++
            (seqRun proc d rest).trace)⟩ := by
  conv_lhs => rw [seqRun]
  rw [h]

theorem seqRun_cons_err (proc : String → Except String σ) (d : Nat) (u m : String)
    (rest : List String) (h : proc u = .error m) :
    seqRun proc d (u :: rest) =
      ⟨(seqRun proc d rest).results, (u, m) :: (seqRun proc d rest).errors,
        Ev.item u :: (seqRun proc d rest).trace⟩ := by
  conv_lhs => rw [seqRun]
  rw [h]

theorem seqRun_nilOut (proc : String → Except String σ) (d : Nat) :
    seqRun proc d [] = ⟨[], [], []⟩ := rfl

theorem seqRun_sleepCount (proc : String → Except String σ) (d : Nat) (hd : 0 < d) :
    ∀ l : List String,
      sleepCount (seqRun proc d l).trace = l.dropLast.countP (fun u => exOk (proc u))
  | [] => rfl
  | u :: rest => by
    have ih := seqRun_sleepCount proc d hd rest
    cases h : proc u with
    | ok s =>
      rw [seqRun_cons_ok proc d u s rest h]
      cases rest with
      | nil => simp [seqRun_nilOut, sleepCount, isSleep]
      | cons v vs =>
        simp only [sleepCount, List.countP_cons, List.countP_append,
          List.dropLast_cons₂, isSleep, exOk, h] at ih ⊢
        simp [hd, ih, List.countP_cons, List.countP_nil, isSleep]
        omega
    | error m =>
      rw [seqRun_cons_err proc d u m rest h]
      cases rest with
      | nil => simp [seqRun_nilOut, sleepCount, isSleep]
      | cons v vs =>
        simp only [sleepCount, List.countP_cons, List.dropLast_cons₂,
          isSleep, exOk, h] at ih ⊢
        simp [ih]

theorem seqRun_sleepTotal (proc : String → Except String σ) (d : Nat) (hd : 0 < d) :
    ∀ l : List String,
      sleepTotal (seqRun proc d l).trace =
        l.dropLast.countP (fun u => exOk (proc u)) * d
  | [] => by simp [seqRun_nilOut, sleepTotal]
  | u :: rest => by
    have ih := seqRun_sleepTotal proc d hd rest
    cases h : proc u with
    | ok s =>
      rw [seqRun_cons_ok proc d u s rest h]
      cases rest with
      | nil => simp [seqRun_nilOut, sleepTotal, sleepMs]
      | cons v vs =>
        simp only [sleepTotal, List.map_cons, List.map_append, List.sum_cons,
          List.sum_append, List.countP_cons, List.dropLast_cons₂,
          sleepMs, exOk, h] at ih ⊢
        simp [hd, ih, sleepMs]
        ring
    | error m =>
      rw [seqRun_cons_err proc d u m rest h]
      cases rest with
      | nil => simp [seqRun_nilOut, sleepTotal, sleepMs]
      | cons v vs =>
        simp only [sleepTotal, List.map_cons, List.sum_cons, List.countP_cons,
          List.dropLast_cons₂, sleepMs, exOk, h] at ih ⊢
        simp [ih]

/-- Induction along the chunk decomposition. -/
theorem chunk_ind {α : Type u} (c : Nat) (hc : 0 < c) (motive : List α → Prop)
    (base : motive []) (step : ∀ l : List α, l ≠ [] → motive (l.drop c) → motive l) :
    ∀ l, motive l := by
  have aux : ∀ (n : Nat) (l : List α), l.length ≤ n → motive l := by
    intro n
    induction n with
    | zero =>
      intro l hl
      have hnil : l = [] := List.length_eq_zero.mp (Nat.le_zero.mp hl)
      rwa [hnil]
    | succ n ih =>
      intro l hl
      cases l with
      | nil => exact base
      | cons x xs =>
        refine step _ (by simp) (ih _ ?_)
        simp only [List.length_drop, List.length_cons]
        simp only [List.length_cons] at hl
        omega
  exact fun l => aux l.length l le_rfl

theorem chunkedRun_nil (proc : String → Except String σ) (d c : Nat) :
    chunkedRun proc d c [] = ⟨[], [], []⟩ := by
  rw [chunkedRun]
  simp

theorem chunkedRun_eq (proc : String → Except String σ) (d c : Nat) (l : List String)
    (hc : c ≠ 0) (hl : l ≠ []) :
    chunkedRun proc d c l =
      ⟨(classify ((l.take c).map (fun u => (u, proc u)))).1 ++
          (chunkedRun proc d c (l.drop c)).results,
        (classify ((l.take c).map (fun u => (u, proc u)))).2 ++
          (chunkedRun proc d c (l.drop c)).errors,
        (l.take c).map Ev.item ++
          (if decide (c < l.length) && decide (0 < d) then [Ev.sleep d] else []) ++
          (chunkedRun proc d c (l.drop c)).trace⟩ := by
  rw [chunkedRun, dif_neg (by simp [hc, hl])]

theorem chunkify_nil (c : Nat) : chunkify c ([] : List α) = [] := by
  rw [chunkify]
  simp

theorem chunkify_eq (c : Nat) (l : List α) (hc : c ≠ 0) (hl : l ≠ []) :
    chunkify c l = l.take c :: chunkify c (l.drop c) := by
  rw [chunkify, dif_neg]
  simp [hc, hl]

theorem natChunkSizes_zero (c : Nat) : natChunkSizes c 0 = [] := by
  rw [natChunkSizes]
  simp

theorem natChunkSizes_eq (c n : Nat) (hc : c ≠ 0) (hn : n ≠ 0) :
    natChunkSizes c n = min c n :: natChunkSizes c (n - c) := by
  rw [natChunkSizes, dif_neg]
  simp [hc, hn]

theorem classify_map (proc : String → Except String σ) :
    ∀ us : List String,
      classify (us.map (fun u => (u, proc u))) =
        (us.filterMap (cOkSel proc), us.filterMap (cErrSel proc))
  | [] => rfl
  | u :: rest => by
    have ih := classify_map proc rest
    by_cases h : recHasError (u, proc u) = true <;>
      simp [classify, cOkSel, cErrSel, h, List.filterMap_cons, ih]

theorem chunkedRun_results (proc : String → Except String σ) (d c : Nat) (hc : 0 < c) :
    ∀ l, (chunkedRun proc d c l).results = l.filterMap (cOkSel proc) := by
  refine chunk_ind c hc _ (by simp [chunkedRun_nil]) ?_
  intro l hl ih
  rw [chunkedRun_eq proc d c l (Nat.pos_iff_ne_zero.mp hc) hl]
  simp only [classify_map]
  rw [ih, ← List.filterMap_append, List.take_append_drop]

theorem chunkedRun_errors (proc : String → Except String σ) (d c : Nat) (hc : 0 < c) :
    ∀ l, (chunkedRun proc d c l).errors = l.filterMap (cErrSel proc) := by
  refine chunk_ind c hc _ (by simp [chunkedRun_nil]) ?_
  intro l hl ih
  rw [chunkedRun_eq proc d c l (Nat.pos_iff_ne_zero.mp hc) hl]
  simp only [classify_map]
  rw [ih, ← List.filterMap_append, List.take_append_drop]

theorem chunkedRun_trace (proc : String → Except String σ) (d c : Nat) (hc : 0 < c) :
    ∀ l, (chunkedRun proc d c l).trace = chunkTraceSpec d (chunkify c l) := by
  refine chunk_ind c hc _ ?_ ?_
  · simp [chunkedRun_nil, chunkify_nil, chunkTraceSpec]
  · intro l hl ih
    rw [chunkedRun_eq proc d c l (Nat.pos_iff_ne_zero.mp hc) hl,
      chunkify_eq c l (Nat.pos_iff_ne_zero.mp hc) hl]
    by_cases hdrop : l.drop c = []
    · have hlen : ¬ c < l.length := by
        have := List.length_drop c l
        rw [hdrop] at this
        simp at this
        omega
      rw [hdrop, chunkify_nil]
      simp [chunkTraceSpec, hlen, chunkedRun_nil, hdrop ▸ ih]
    · have hlt : c < l.length := by
        have := List.length_drop c l
        rcases Nat.lt_or_ge c l.length with h | h
        · exact h
        · exact absurd (List.drop_eq_nil_of_le h) hdrop
      cases ht : chunkify c (l.drop c) with
      | nil =>
        rw [chunkify_eq c (l.drop c) (Nat.pos_iff_ne_zero.mp hc) hdrop] at ht
        exact absurd ht (by simp)
      | cons ch2 rest2 =>
        rw [ih, ht]
        simp only [chunkTraceSpec]
        by_cases hd : 0 < d <;> simp [hd, hlt]

theorem sleepCount_spec (d : Nat) (hd : 0 < d) :
    ∀ chunks : List (List String), chunks ≠ [] →
      sleepCount (chunkTraceSpec d chunks) = chunks.length - 1
  | [], h => absurd rfl h
  | [ch], _ => by
    simp [chunkTraceSpec, sleepCount, List.countP_map, Function.comp, isSleep]
  | ch :: ch2 :: rest, _ => by
    have ih := sleepCount_spec d hd (ch2 :: rest) (by simp)
    have h1 : List.countP isSleep (ch.map Ev.item) = 0 := by
      simp [List.countP_map, Function.comp, isSleep]
    have h2 : List.countP isSleep [Ev.sleep d] = 1 := by
      simp [List.countP_cons, List.countP_nil, isSleep]
    simp only [sleepCount] at ih
    simp only [chunkTraceSpec, sleepCount, List.countP_append, if_pos hd, h1, h2,
      List.length_cons] at ih ⊢
    omega

theorem chunkify_sizes (c : Nat) (hc : 0 < c) :
    ∀ l : List α, (chunkify c l).map List.length = natChunkSizes c l.length := by
  refine chunk_ind (α := α) c hc
    (fun l => (chunkify c l).map List.length = natChunkSizes c l.length) ?_ ?_
  · simp [chunkify_nil, natChunkSizes_zero]
  · intro l hl ih
    rw [chunkify_eq c l (Nat.pos_iff_ne_zero.mp hc) hl,
      natChunkSizes_eq c l.length (Nat.pos_iff_ne_zero.mp hc)
        (by simpa [List.length_eq_zero] using hl)]
    simp [List.length_take, ih, List.length_drop]

theorem chunkify_flatten (c : Nat) (hc : 0 < c) :
    ∀ l : List α, (chunkify c l).flatten = l := by
  refine chunk_ind (α := α) c hc (fun l => (chunkify c l).flatten = l) ?_ ?_
  · simp [chunkify_nil]
  · intro l hl ih
    rw [chunkify_eq c l (Nat.pos_iff_ne_zero.mp hc) hl]
    simp [ih]

theorem natChunkSizes_dropLast (c : Nat) (hc : 0 < c) :
    ∀ n, ∀ x ∈ (natChunkSizes c n).dropLast, x = c := by
  intro n
  induction n using Nat.strong_induction_on with
  | _ n ih =>
    intro x hx
    by_cases hn : n = 0
    · rw [hn, natChunkSizes_zero] at hx
      simp at hx
    · rw [natChunkSizes_eq c n (Nat.pos_iff_ne_zero.mp hc) hn] at hx
      cases ht : natChunkSizes c (n - c) with
      | nil => simp [ht] at hx
      | cons y ys =>
        rw [ht] at hx
        have hsub : n - c ≠ 0 := by
          intro h0
          rw [h0, natChunkSizes_zero] at ht
          exact List.noConfusion ht
        rw [List.dropLast_cons₂] at hx
        rcases List.mem_cons.mp hx with h1 | h2
        · rw [h1]
          exact Nat.min_eq_left (by omega)
        · exact ih (n - c) (by omega) x (ht ▸ h2)

theorem natChunkSizes_bounds (c : Nat) (hc : 0 < c) :
    ∀ n, ∀ x ∈ natChunkSizes c n, 0 < x ∧ x ≤ c := by
  intro n
  induction n using Nat.strong_induction_on with
  | _ n ih =>
    intro x hx
    by_cases hn : n = 0
    · rw [hn, natChunkSizes_zero] at hx
      simp at hx
    · rw [natChunkSizes_eq c n (Nat.pos_iff_ne_zero.mp hc) hn] at hx
      rcases List.mem_cons.mp hx with h1 | h2
      · constructor
        · rw [h1]
          exact Nat.lt_min.mpr ⟨hc, Nat.pos_of_ne_zero hn⟩
        · rw [h1]
          exact Nat.min_le_left c n
      · exact ih (n - c) (by omega) x h2

/-- Each element of the input contributes to exactly one of two `filterMap`
projections; together they are a permutation of the input. -/
theorem sel_perm {β γ : Type} (f : String → Option β) (g : String → Option γ)
    (pf : β → String) (pg : γ → String)
    (hfg : ∀ u, (∃ b, f u = some b ∧ pf b = u ∧ g u = none) ∨
      (∃ cc, g u = some cc ∧ pg cc = u ∧ f u = none)) :
    ∀ l : List String, List.Perm ((l.filterMap f).map pf ++ (l.filterMap g).map pg) l
  | [] => by simp
  | u :: rest => by
    have ih := sel_perm f g pf pg hfg rest
    rcases hfg u with ⟨b, hb, hpb, hg⟩ | ⟨cc, hcc, hpc, hf⟩
    · simp only [List.filterMap_cons, hb, hg, List.map_cons, List.cons_append]
      rw [hpb]
      exact ih.cons u
    · simp only [List.filterMap_cons, hcc, hf, List.map_cons]
      refine List.perm_middle.trans ?_
      rw [hpc]
      exact ih.cons u

theorem filterMap_singleton_of {β : Type} (p : String → Option β) (x : String) (y : β)
    (hx : p x = some y) :
    ∀ l : List String, l.Nodup → x ∈ l → (∀ u ∈ l, u ≠ x → p u = none) →
      l.filterMap p = [y]
  | [], _, hmem, _ => absurd hmem (List.not_mem_nil x)
  | a :: rest, hnd, hmem, hnone => by
    by_cases hax : a = x
    · subst hax
      have hrest : a ∉ rest := (List.nodup_cons.mp hnd).1
      have hnil : rest.filterMap p = [] :=
        List.filterMap_eq_nil_iff.mpr fun u hu =>
          hnone u (List.mem_cons_of_mem _ hu) fun he => hrest (he ▸ hu)
      simp [List.filterMap_cons, hx, hnil]
    · have hmem' : x ∈ rest := by
        rcases List.mem_cons.mp hmem with h | h
        · exact absurd h.symm hax
        · exact h
      have hnoneA : p a = none :=
        hnone a (List.mem_cons_self _ _) fun he => hax he
      simp only [List.filterMap_cons, hnoneA]
      exact filterMap_singleton_of p x y hx rest (List.nodup_cons.mp hnd).2 hmem'
        fun u hu hux => hnone u (List.mem_cons_of_mem _ hu) hux

theorem seqRun_perm (proc : String → Except String σ) (d : Nat) (l : List String) :
    List.Perm
      ((seqRun proc d l).results.map Prod.fst ++ (seqRun proc d l).errors.map Prod.fst)
      l := by
  rw [seqRun_results, seqRun_errors]
  refine sel_perm (okSel proc) (errSel proc) Prod.fst Prod.fst ?_ l
  intro u
  cases h : proc u with
  | ok s => exact Or.inl ⟨(u, .ok s), by simp [okSel, h], rfl, by simp [errSel, h]⟩
  | error m => exact Or.inr ⟨(u, m), by simp [errSel, h], rfl, by simp [okSel, h]⟩

theorem chunkedRun_perm (proc : String → Except String σ) (d c : Nat) (hc : 0 < c)
    (l : List String) :
    List.Perm
      ((chunkedRun proc d c l).results.map Prod.fst ++
        (chunkedRun proc d c l).errors.map Prod.fst)
      l := by
  rw [chunkedRun_results proc d c hc, chunkedRun_errors proc d c hc]
  refine sel_perm (cOkSel proc) (cErrSel proc) Prod.fst Prod.fst ?_ l
  intro u
  cases h : proc u with
  | ok s =>
    exact Or.inl ⟨(u, .ok s), by simp [cOkSel, recHasError, h], rfl,
      by simp [cErrSel, recHasError, h]⟩
  | error m =>
    by_cases hm : m = ""
    · exact Or.inl ⟨(u, .error m), by simp [cOkSel, recHasError, h, hm], rfl,
        by simp [cErrSel, recHasError, h, hm]⟩
    · exact Or.inr ⟨(u, m), by simp [cErrSel, recHasError, errMsgOf, h, hm], rfl,
        by simp [cOkSel, recHasError, h, hm]⟩

/-! ## Claim theorems -/

/-- C2: for `concurrency = c > 1` the scheduler partitions the selected
sublist into consecutive chunks of size `c` (last chunk possibly smaller and
nonempty), waits for every item of a chunk before the next chunk starts (the
run trace is exactly the chunk-structured trace), and sleeps for the
configured positive delay after each chunk except the last; in particular
with `c = 3` and 7 items the chunk sizes are `[3, 3, 1]` and the delay occurs
exactly twice. -/
theorem c2_chunking :
    (∀ (σ : Type) (proc : String → Except String σ) (d c : Nat) (l : List String),
      1 < c → 0 < d →
        (chunkedRun proc d c l).trace = chunkTraceSpec d (chunkify c l) ∧
        (chunkify c l).flatten = l ∧
        (∀ x ∈ ((chunkify c l).map List.length).dropLast, x = c) ∧
        (∀ x ∈ (chunkify c l).map List.length, 0 < x ∧ x ≤ c) ∧
        (l ≠ [] →
          sleepCount (chunkedRun proc d c l).trace = (chunkify c l).length - 1)) ∧
    (∀ (σ : Type) (proc : String → Except String σ) (d : Nat) (l : List String),
      0 < d → l.length = 7 →
        (chunkify 3 l).map List.length = [3, 3, 1] ∧
        sleepCount (chunkedRun proc d 3 l).trace = 2) := by
  constructor
  · intro σ proc d c l hc hd
    have hc0 : 0 < c := Nat.lt_of_lt_of_le Nat.one_pos (Nat.le_of_lt hc)
    refine ⟨chunkedRun_trace proc d c hc0 l, chunkify_flatten c hc0 l, ?_, ?_, ?_⟩
    · intro x hx
      rw [chunkify_sizes c hc0 l] at hx
      exact natChunkSizes_dropLast c hc0 l.length x hx
    · intro x hx
      rw [chunkify_sizes c hc0 l] at hx
      exact natChunkSizes_bounds c hc0 l.length x hx
    · intro hl
      rw [chunkedRun_trace proc d c hc0 l]
      exact sleepCount_spec d hd (chunkify c l)
        (by rw [chunkify_eq c l (Nat.pos_iff_ne_zero.mp hc0) hl]; simp)
  · intro σ proc d l hd h7
    have h3 : (0 : Nat) < 3 := by norm_num
    have hsizes : (chunkify 3 l).map List.length = [3, 3, 1] := by
      rw [chunkify_sizes 3 h3 l, h7]
      norm_num [natChunkSizes_eq, natChunkSizes_zero]
    refine ⟨hsizes, ?_⟩
    have hlen : (chunkify 3 l).length = 3 := by
      have := congrArg List.length hsizes
      simpa using this
    have hne : chunkify 3 l ≠ [] := by
      intro h0
      rw [h0] at hlen
      simp at hlen
    rw [chunkedRun_trace proc d 3 h3 l, sleepCount_spec d hd (chunkify 3 l) hne, hlen]

theorem c2_chunking_witness :
    ((chunkify 2 ["a", "b", "c"]).flatten = ["a", "b", "c"] ∧
      sleepCount
          (chunkedRun (fun _ => Except.ok ()) 1 2 ["a", "b", "c"]).trace =
        (chunkify 2 ["a", "b", "c"]).length - 1) ∧
    ((chunkify 3 ["a", "b", "c", "d", "e", "f", "g"]).map List.length = [3, 3, 1] ∧
      sleepCount
          (chunkedRun (fun _ => Except.ok ())
            1 3 ["a", "b", "c", "d", "e", "f", "g"]).trace = 2) :=
  ⟨⟨(c2_chunking.1 Unit (fun _ => Except.ok ()) 1 2 ["a", "b", "c"] (by norm_num)
        (by norm_num)).2.1,
    (c2_chunking.1 Unit (fun _ => Except.ok ()) 1 2 ["a", "b", "c"] (by norm_num)
        (by norm_num)).2.2.2.2 (by simp)⟩,
    c2_chunking.2 Unit (fun _ => Except.ok ()) 1 ["a", "b", "c", "d", "e", "f", "g"]
      (by norm_num) (by simp)⟩

/-- C3 (amended): in sequential mode items are processed strictly in list
order; the delay is incurred after each SUCCESSFULLY processed item except
the last (a rejected item skips the delay because the `catch` block bypasses
it); hence with a positive delay `D` the number of sleeps equals the number
of successful items among the first `N-1`, and when every item succeeds it is
exactly `N-1` with total sleep time `(N-1)*D`. -/
theorem c3_sequential_throttling :
    (∀ (σ : Type) (proc : String → Except String σ) (d : Nat) (l : List String),
      (seqRun proc d l).trace.filterMap itemOf = l) ∧
    (∀ (σ : Type) (proc : String → Except String σ) (d : Nat) (l : List String),
      0 < d →
        sleepCount (seqRun proc d l).trace =
          l.dropLast.countP (fun u => exOk (proc u)) ∧
        sleepTotal (seqRun proc d l).trace =
          l.dropLast.countP (fun u => exOk (proc u)) * d) ∧
    (∀ (σ : Type) (proc : String → Except String σ) (d : Nat) (l : List String),
      0 < d → (∀ u ∈ l, exOk (proc u) = true) →
        sleepCount (seqRun proc d l).trace = l.length - 1 ∧
        sleepTotal (seqRun proc d l).trace = (l.length - 1) * d) := by
  refine ⟨fun σ proc d l => seqRun_items proc d l,
    fun σ proc d l hd => ⟨seqRun_sleepCount proc d hd l, seqRun_sleepTotal proc d hd l⟩,
    fun σ proc d l hd hall => ?_⟩
  have hcnt : l.dropLast.countP (fun u => exOk (proc u)) = l.length - 1 := by
    rw [List.countP_eq_length.mpr fun a ha => hall a (List.dropLast_subset l ha)]
    exact List.length_dropLast l
  rw [seqRun_sleepCount proc d hd l, seqRun_sleepTotal proc d hd l, hcnt]
  exact ⟨rfl, rfl⟩

theorem c3_sequential_throttling_witness :
    sleepCount
        (seqRun (fun _ => Except.ok ()) 5 ["a", "b", "c"]).trace =
      ["a", "b", "c"].length - 1 ∧
    sleepTotal
        (seqRun (fun _ => Except.ok ()) 5 ["a", "b", "c"]).trace =
      (["a", "b", "c"].length - 1) * 5 :=
  c3_sequential_throttling.2.2 Unit (fun _ => Except.ok ()) 5 ["a", "b", "c"]
    (by norm_num) (by decide)

/-- C3 counterexample: with two items, a positive delay of 5 and the FIRST
item failing, the sequential scheduler performs no sleep at all, while the
claim demands exactly `N - 1 = 1` delay after every non-last item. -/
theorem c3_counterexample :
    (seqRun (fun u => if u == "u0" then Except.error "boom" else Except.ok ()) 5
        ["u0", "u1"]).trace = [Ev.item "u0", Ev.item "u1"] ∧
    sleepCount
        ((seqRun (fun u => if u == "u0" then Except.error "boom" else Except.ok ()) 5
          ["u0", "u1"]).trace) ≠ ["u0", "u1"].length - 1 := by
  exact ⟨by decide, by decide⟩

/-- C9: in both modes every selected item contributes exactly one record to
the final report (the urls of the success records and of the error records
together are a permutation of the selected sublist), so success count plus
error count equals the reported selected total. -/
theorem c9_one_record_per_item :
    (∀ (σ : Type) (proc : String → Except String σ) (d : Nat) (l : List String),
      List.Perm
        ((seqRun proc d l).results.map Prod.fst ++
          (seqRun proc d l).errors.map Prod.fst) l) ∧
    (∀ (σ : Type) (proc : String → Except String σ) (d c : Nat) (l : List String),
      0 < c →
        List.Perm
          ((chunkedRun proc d c l).results.map Prod.fst ++
            (chunkedRun proc d c l).errors.map Prod.fst) l) ∧
    (∀ (σ : Type) (fsys : String → Option String) (proc : String → Except String σ)
      (path : String) (opts : DlOpts) (rep : BatchReport σ),
      0 < opts.concurrent →
        downloadFromFile σ fsys proc path opts = Except.ok rep →
        rep.results.length + rep.errors.length = rep.total) := by
  refine ⟨fun σ proc d l => seqRun_perm proc d l,
    fun σ proc d c l hc => chunkedRun_perm proc d c hc l,
    fun σ fsys proc path opts rep hc hrep => ?_⟩
  unfold downloadFromFile at hrep
  cases hfs : fsys path with
  | none =>
    rw [hfs] at hrep
    exact Except.noConfusion hrep
  | some content =>
    rw [hfs] at hrep
    dsimp only at hrep
    by_cases hempty : (parseUrls content).isEmpty
    · rw [if_pos hempty] at hrep
      exact Except.noConfusion hrep
    · rw [if_neg hempty] at hrep
      have hout := Except.ok.inj hrep
      subst hout
      by_cases hone : opts.concurrent = 1
      · have hperm := seqRun_perm proc opts.delay
          (applyRange (parseUrls content) opts.startIndex opts.endIndex)
        have hlen := hperm.length_eq
        simp only [List.length_append, List.length_map] at hlen
        simp [hone, hlen]
      · have hperm := chunkedRun_perm proc opts.delay opts.concurrent hc
          (applyRange (parseUrls content) opts.startIndex opts.endIndex)
        have hlen := hperm.length_eq
        simp only [List.length_append, List.length_map] at hlen
        simp [hone, hlen]

theorem c9_one_record_per_item_witness :
    (List.Perm
      ((chunkedRun (fun u => if u == "a" then Except.error "" else Except.ok ()) 0 2
          ["a", "b"]).results.map Prod.fst ++
        (chunkedRun (fun u => if u == "a" then Except.error "" else Except.ok ()) 0 2
          ["a", "b"]).errors.map Prod.fst) ["a", "b"]) ∧
    ((⟨[("youtu.be", Except.ok ())], [("youtube.com", "x")], 2, 2,
        [Ev.item "youtube.com", Ev.item "youtu.be"]⟩ : BatchReport Unit).results.length +
      (⟨[("youtu.be", Except.ok ())], [("youtube.com", "x")], 2, 2,
        [Ev.item "youtube.com", Ev.item "youtu.be"]⟩ : BatchReport Unit).errors.length =
      (⟨[("youtu.be", Except.ok ())], [("youtube.com", "x")], 2, 2,
        [Ev.item "youtube.com", Ev.item "youtu.be"]⟩ : BatchReport Unit).total) :=
  ⟨c9_one_record_per_item.2.1 Unit
      (fun u => if u == "a" then Except.error "" else Except.ok ()) 0 2 ["a", "b"]
      (by norm_num),
    c9_one_record_per_item.2.2 Unit
      (fun p => if p == "f" then some "youtube.com\nyoutu.be" else none)
      (fun u => if u == "youtube.com" then Except.error "x" else Except.ok ())
      "f" ⟨1, 0, 0, none⟩
      ⟨[("youtu.be", Except.ok ())], [("youtube.com", "x")], 2, 2,
        [Ev.item "youtube.com", Ev.item "youtu.be"]⟩
      (by norm_num) (by decide)⟩

/-- C10: in chunked mode classification is by JS truthiness of the record's
`error` field, so an item rejected with the EMPTY error message yields the
record `{url, error: ""}` in the `results` (successes) array and never
appears in `errors` — the failure is counted as a success. -/
theorem c10_empty_error_counted_as_success :
    ∀ (σ : Type) (proc : String → Except String σ) (d c : Nat) (l : List String)
      (u : String),
      0 < c → u ∈ l → proc u = Except.error "" →
        (u, Except.error "") ∈ (chunkedRun proc d c l).results ∧
        ∀ m, (u, m) ∉ (chunkedRun proc d c l).errors := by
  intro σ proc d c l u hc hu hproc
  constructor
  · rw [chunkedRun_results proc d c hc]
    exact List.mem_filterMap.mpr ⟨u, hu, by simp [cOkSel, recHasError, hproc]⟩
  · intro m hm
    rw [chunkedRun_errors proc d c hc] at hm
    rcases List.mem_filterMap.mp hm with ⟨v, hv, hsel⟩
    unfold cErrSel at hsel
    by_cases hre : recHasError (v, proc v) = true
    · rw [if_pos hre] at hsel
      have hvu : v = u := (Prod.mk.inj (Option.some.inj hsel)).1
      rw [hvu, hproc] at hre
      simp [recHasError] at hre
    · rw [if_neg hre] at hsel
      exact Option.noConfusion hsel

theorem c10_empty_error_counted_as_success_witness :
    ("a", Except.error "") ∈
      (chunkedRun (fun v => if v == "a" then Except.error "" else Except.ok ()) 0 2
        ["a", "b"]).results :=
  (c10_empty_error_counted_as_success Unit
    (fun v => if v == "a" then Except.error "" else Except.ok ()) 0 2 ["a", "b"] "a"
    (by norm_num) (by decide) (by decide)).1

/-- C1 counterexample: two items in chunked mode with concurrency 2, the
first rejecting with the EMPTY error message and the second succeeding: the
report carries 0 failure records and 2 success records, not `N-1 = 1`
successes and 1 failure referencing the failed item. -/
theorem c1_counterexample :
    (chunkedRun (fun u => if u == "a" then Except.error "" else Except.ok ()) 0 2
        ["a", "b"]).errors = [] ∧
    (chunkedRun (fun u => if u == "a" then Except.error "" else Except.ok ()) 0 2
        ["a", "b"]).results.length = 2 := by
  constructor <;>
    simp [chunkedRun_eq, chunkedRun_nil, classify, recHasError, errMsgOf]

/-- C1 (amended): if exactly one selected item `k` fails and all others
succeed, the run completes with `N-1` success records and exactly one
failure record referencing item `k`; sequential mode still processes every
item (including `k+1..N`) unconditionally, chunked mode provided the
rejection's error message is non-empty (an empty message is misclassified as
a success, see C10). -/
theorem c1_partial_failure :
    ∀ (σ : Type) (proc : String → Except String σ) (d : Nat) (l : List String)
      (k : Nat) (hk : k < l.length) (msg : String),
      l.Nodup →
      proc (l.get ⟨k, hk⟩) = Except.error msg →
      (∀ u ∈ l, u ≠ l.get ⟨k, hk⟩ → exOk (proc u) = true) →
        ((seqRun proc d l).errors = [(l.get ⟨k, hk⟩, msg)] ∧
          (seqRun proc d l).results.length = l.length - 1 ∧
          (∀ j (hj : j < l.length),
            Ev.item (l.get ⟨j, hj⟩) ∈ (seqRun proc d l).trace)) ∧
        (msg ≠ "" → ∀ c, 0 < c →
          (chunkedRun proc d c l).errors = [(l.get ⟨k, hk⟩, msg)] ∧
          (chunkedRun proc d c l).results.length = l.length - 1) := by
  intro σ proc d l k hk msg hnd hfail hok
  have hxmem : l.get ⟨k, hk⟩ ∈ l := List.get_mem l k hk
  have hselnone : ∀ u ∈ l, u ≠ l.get ⟨k, hk⟩ → errSel proc u = none := by
    intro u hu hne
    have := hok u hu hne
    cases h : proc u with
    | ok s => simp [errSel, h]
    | error m => rw [h] at this; simp [exOk] at this
  constructor
  · have herr : (seqRun proc d l).errors = [(l.get ⟨k, hk⟩, msg)] := by
      rw [seqRun_errors]
      exact filterMap_singleton_of (errSel proc) (l.get ⟨k, hk⟩) (l.get ⟨k, hk⟩, msg)
        (by unfold errSel; rw [hfail]) l hnd hxmem hselnone
    refine ⟨herr, ?_, ?_⟩
    · have hlen := (seqRun_perm proc d l).length_eq
      simp only [List.length_append, List.length_map] at hlen
      rw [herr] at hlen
      simp only [List.length_cons, List.length_nil] at hlen
      omega
    · intro j hj
      have hmem : l.get ⟨j, hj⟩ ∈ (seqRun proc d l).trace.filterMap itemOf := by
        rw [seqRun_items proc d l]
        exact List.get_mem l j hj
      rcases List.mem_filterMap.mp hmem with ⟨ev, hev, hio⟩
      cases ev with
      | item u =>
        have : u = l.get ⟨j, hj⟩ := Option.some.inj hio
        rwa [← this]
      | sleep ms => exact Option.noConfusion hio
  · intro hmsg c hc
    have hcselnone : ∀ u ∈ l, u ≠ l.get ⟨k, hk⟩ → cErrSel proc u = none := by
      intro u hu hne
      have := hok u hu hne
      cases h : proc u with
      | ok s => simp [cErrSel, recHasError, h]
      | error m => rw [h] at this; simp [exOk] at this
    have herr : (chunkedRun proc d c l).errors = [(l.get ⟨k, hk⟩, msg)] := by
      rw [chunkedRun_errors proc d c hc]
      exact filterMap_singleton_of (cErrSel proc) (l.get ⟨k, hk⟩) (l.get ⟨k, hk⟩, msg)
        (by unfold cErrSel; rw [hfail]; simp [recHasError, errMsgOf, hmsg]) l hnd hxmem
        hcselnone
    refine ⟨herr, ?_⟩
    have hlen := (chunkedRun_perm proc d c hc l).length_eq
    simp only [List.length_append, List.length_map] at hlen
    rw [herr] at hlen
    simp only [List.length_cons, List.length_nil] at hlen
    omega

theorem jsRel_le (len : Nat) (i : Int) : jsRel len i ≤ len := by
  unfold jsRel
  split
  · omega
  · exact Nat.min_le_right _ _

theorem jsSlice_eq_nil (l : List α) (s e : Int)
    (h : jsRel l.length e ≤ jsRel l.length s) : jsSlice l s e = [] := by
  apply List.drop_eq_nil_of_le
  rw [List.length_take]
  exact le_trans (Nat.min_le_left _ _) h

/-- C4 counterexample: the inverted request `start = 2, end = 1` does NOT
raise a range error anywhere in the repository: the validation of the
interactive entry point accepts it (it compares the EXCLUSIVE end
`1 + 1 = 2` with the start), and `downloadFromFile` (which never validates)
returns a normal report with zero selected items. -/
theorem c4_counterexample :
    validateRange 2 1 = true ∧
    downloadFromFile Unit
        (fun p => if p == "playlist.txt" then
          some ("https://youtube.com/watch?v=AAAAAAAAAAA\n" ++
            "https://youtube.com/watch?v=BBBBBBBBBBB\n" ++
            "https://youtube.com/watch?v=CCCCCCCCCCC") else none)
        (fun _ => Except.ok ()) "playlist.txt" ⟨1, 0, 2, some 2⟩ =
      Except.ok ⟨[], [], 0, 3, []⟩ :=
  ⟨by decide, by decide⟩

/-- C4 (amended): range validation (src/index.js:42-45) fails exactly when
`startIndex < 0` or when the EXCLUSIVE end index `endInclusive + 1` is below
the start index — so an inverted pair with `end = start - 1` (such as
`start = 2, end = 1`) is accepted and simply selects zero items; a start
index at or beyond the list length is never an error and yields the empty
selection. -/
theorem c4_range_validation :
    (∀ s e : Int, validateRange s e = false ↔ (s < 0 ∨ e + 1 < s)) ∧
    (∀ (l : List String) (s : Int) (e : Option Int),
      (l.length : Int) ≤ s → applyRange l s e = []) ∧
    (∀ l : List String, applyRange l 2 (some 2) = []) := by
  refine ⟨?_, ?_, ?_⟩
  · intro s e
    simp [validateRange]
    omega
  · intro l s e hs
    unfold applyRange
    apply jsSlice_eq_nil
    have h1 : jsRel l.length (max 0 s) = l.length := by
      unfold jsRel
      rw [if_neg (by omega)]
      omega
    rw [h1]
    exact jsRel_le _ _
  · intro l
    unfold applyRange
    have hred : (match (some 2 : Option Int) with
        | none => (l.length : Int) | some e => e) = (2 : Int) := rfl
    rw [hred]
    apply jsSlice_eq_nil
    unfold jsRel
    split_ifs <;> omega

theorem c4_range_validation_witness :
    validateRange (-1) 0 = false ∧
    applyRange ["a"] (5 : Int) none = ([] : List String) ∧
    applyRange ["x", "y", "z"] 2 (some 2) = ([] : List String) :=
  ⟨(c4_range_validation.1 (-1) 0).mpr (Or.inl (by norm_num)),
    c4_range_validation.2.1 ["a"] 5 none (by norm_num),
    c4_range_validation.2.2 ["x", "y", "z"]⟩

/-- C5: for a non-empty work list and an in-range inclusive pair
`(s, e)` (passed to `downloadFromFile` as the exclusive `e + 1`), the
selection has exactly `min e (len-1) - s + 1` elements — `e - s + 1` after
clamping `e` to the last index — and element `i` of the selection is element
`s + i` of the work list: the items in original order, nothing duplicated or
dropped. -/
theorem c5_range_selection :
    ∀ (l : List String) (s e : Nat), l ≠ [] → s ≤ e → s < l.length →
      (applyRange l (s : Int) (some ((e : Int) + 1))).length =
        min e (l.length - 1) - s + 1 ∧
      ∀ i, i < (applyRange l (s : Int) (some ((e : Int) + 1))).length →
        (applyRange l (s : Int) (some ((e : Int) + 1)))[i]? = l[s + i]? := by
  intro l s e hne hse hsl
  have hE : jsRel l.length (min (l.length : Int) ((e : Int) + 1)) =
      min l.length (e + 1) := by
    unfold jsRel
    rw [if_neg (by omega)]
    omega
  have hS : jsRel l.length (max 0 (s : Int)) = s := by
    unfold jsRel
    rw [if_neg (by omega)]
    omega
  have key : applyRange l (s : Int) (some ((e : Int) + 1)) =
      (l.take (min l.length (e + 1))).drop s := by
    unfold applyRange jsSlice
    rw [hS]
    have : (match some ((e : Int) + 1) with
        | none => (l.length : Int) | some x => x) = (e : Int) + 1 := rfl
    rw [this, hE]
  have hlen : (applyRange l (s : Int) (some ((e : Int) + 1))).length =
      min e (l.length - 1) - s + 1 := by
    rw [key]
    simp only [List.length_drop, List.length_take]
    omega
  refine ⟨hlen, ?_⟩
  intro i hi
  rw [hlen] at hi
  rw [key, List.getElem?_drop]
  exact List.getElem?_take_of_lt (by omega)

theorem c5_range_selection_witness :
    (applyRange ["a", "b", "c"] ((1 : Nat) : Int)
        (some (((5 : Nat) : Int) + 1))).length =
      min 5 (["a", "b", "c"].length - 1) - 1 + 1 :=
  (c5_range_selection ["a", "b", "c"] 1 5 (by decide) (by norm_num)
    (by norm_num)).1

theorem c1_partial_failure_witness :
    (chunkedRun (fun u => if u == "b" then Except.error "boom" else Except.ok ()) 0 2
        ["a", "b", "c"]).errors = [("b", "boom")] :=
  ((c1_partial_failure Unit
      (fun u => if u == "b" then Except.error "boom" else Except.ok ()) 0
      ["a", "b", "c"] 1 (by norm_num) "boom" (by decide) (by decide)
      (by decide)).2 (by decide) 2 (by norm_num)).1

/-- C7: the source reader fails with the not-found error when the file is
missing; otherwise it splits the content into lines, trims each line,
discards empty lines and lines starting with `#`, keeps exactly the lines
recognized as item references, fails with the empty-source error when
nothing remains, and preserves the input line order (the work list is a
sublist of the trimmed line sequence). -/
theorem c7_source_reader :
    (∀ (σ : Type) (fsys : String → Option String) (proc : String → Except String σ)
      (path : String) (opts : DlOpts),
      fsys path = none →
        downloadFromFile σ fsys proc path opts =
          Except.error ("File not found: " ++ path)) ∧
    (∀ (σ : Type) (fsys : String → Option String) (proc : String → Except String σ)
      (path content : String) (opts : DlOpts),
      fsys path = some content → parseUrls content = [] →
        downloadFromFile σ fsys proc path opts =
          Except.error "No valid YouTube URLs found in file") ∧
    (∀ content : String, parseUrls content =
      ((splitLines content.toList).map (fun ln => jsTrim (String.mk ln))).filter
        (fun ln => (!(ln == "") && !startsWithPound ln) && isYtUrl ln)) ∧
    (∀ content : String, List.Sublist (parseUrls content)
      ((splitLines content.toList).map (fun ln => jsTrim (String.mk ln)))) ∧
    (∀ (content : String) (u : String), u ∈ parseUrls content →
      u ≠ "" ∧ startsWithPound u = false ∧ isYtUrl u = true) := by
  refine ⟨?_, ?_, ?_, ?_, ?_⟩
  · intro σ fsys proc path opts h
    unfold downloadFromFile
    rw [h]
  · intro σ fsys proc path content opts h hparse
    unfold downloadFromFile
    rw [h]
    dsimp only
    rw [hparse]
    rfl
  · intro content
    unfold parseUrls
    rw [List.filter_filter]
    apply List.filter_congr
    intro ln _
    rw [Bool.and_comm]
  · intro content
    exact (List.filter_sublist _).trans (List.filter_sublist _)
  · intro content u hu
    unfold parseUrls at hu
    have h2 := List.mem_filter.mp hu
    have h1 := List.mem_filter.mp h2.1
    refine ⟨?_, ?_, h2.2⟩
    · intro he
      rw [he] at h1
      simp at h1
    · rcases Bool.and_eq_true_iff.mp h1.2 with ⟨_, hb⟩
      simpa using hb

theorem c7_source_reader_witness :
    downloadFromFile Unit (fun _ => none) (fun _ => Except.ok ()) "nope.txt"
        ⟨1, 0, 0, none⟩ =
      Except.error ("File not found: " ++ "nope.txt") ∧
    downloadFromFile Unit (fun p => if p == "urls.txt" then some "not-a-url" else none)
        (fun _ => Except.ok ()) "urls.txt" ⟨1, 0, 0, none⟩ =
      Except.error "No valid YouTube URLs found in file" ∧
    ("youtube.com" ≠ "" ∧ startsWithPound "youtube.com" = false ∧
      isYtUrl "youtube.com" = true) :=
  ⟨c7_source_reader.1 Unit (fun _ => none) (fun _ => Except.ok ()) "nope.txt"
      ⟨1, 0, 0, none⟩ rfl,
    c7_source_reader.2.1 Unit (fun p => if p == "urls.txt" then some "not-a-url" else none)
      (fun _ => Except.ok ()) "urls.txt" "not-a-url" ⟨1, 0, 0, none⟩ (by decide)
      (by decide),
    c7_source_reader.2.2.2.2 "youtube.com" "youtube.com" (by decide)⟩

/-- C8 counterexample: the spec scenario's lines use the host `x`, which the
code's validity predicate (`includes('youtube.com') || includes('youtu.be')`)
rejects, so the parser keeps 0 entries — not 2 — and the reader fails with
the empty-source error instead of returning a 2-element work list. -/
theorem c8_counterexample :
    parseUrls
        "https://x/watch?v=AAAAAAAAAAA\n# comment\n\nnot-a-url\nhttps://x/watch?v=BBBBBBBBBBB" =
      [] ∧
    downloadFromFile Unit
        (fun p => if p == "urls.txt" then
          some "https://x/watch?v=AAAAAAAAAAA\n# comment\n\nnot-a-url\nhttps://x/watch?v=BBBBBBBBBBB"
          else none)
        (fun _ => Except.ok ()) "urls.txt" ⟨1, 0, 0, none⟩ =
      Except.error "No valid YouTube URLs found in file" :=
  ⟨by decide, by decide⟩

/-- C8 (amended): with item references on a host the predicate recognizes
(`youtube.com`), the scenario behaves as described: the five lines yield
exactly the two watch URLs, in order. -/
theorem c8_scenario :
    parseUrls
        "https://youtube.com/watch?v=AAAAAAAAAAA\n# comment\n\nnot-a-url\nhttps://youtube.com/watch?v=BBBBBBBBBBB" =
      ["https://youtube.com/watch?v=AAAAAAAAAAA",
        "https://youtube.com/watch?v=BBBBBBBBBBB"] := by
  decide

/-- Evaluation of `downloadMp3` when the output file already exists: the
skip result, after the metadata fetch and the existence check. -/
theorem downloadMp3_skip (w : World) (outputDir url videoId : String) (info : RawInfo)
    (hx : extractVideoId url = some videoId)
    (hm : w.meta videoId = Except.ok info)
    (hfs : w.fs (outputDir ++ "/" ++ (sanitizeFilename info.title ++ ".mp3")) = true) :
    downloadMp3 w outputDir url none =
      (Except.ok ⟨true, sanitizeFilename info.title ++ ".mp3", none, none,
          some "File already exists", true⟩,
        [Effect.metaFetch videoId,
          Effect.existsCheck
            (outputDir ++ "/" ++ (sanitizeFilename info.title ++ ".mp3"))]) := by
  unfold downloadMp3
  rw [hx]
  dsimp only
  unfold getVideoInfo
  rw [hm]
  dsimp only
  rw [hfs]
  simp

/-- Evaluation of `downloadMp3` when the output file does not exist and the
stream-plus-transcode step succeeds. -/
theorem downloadMp3_fresh (w : World) (outputDir url videoId : String) (info : RawInfo)
    (hx : extractVideoId url = some videoId)
    (hm : w.meta videoId = Except.ok info)
    (hfs : w.fs (outputDir ++ "/" ++ (sanitizeFilename info.title ++ ".mp3")) = false)
    (henc : w.encode videoId
      (outputDir ++ "/" ++ (sanitizeFilename info.title ++ ".mp3")) = Except.ok ()) :
    downloadMp3 w outputDir url none =
      (Except.ok ⟨true, sanitizeFilename info.title ++ ".mp3",
          some (outputDir ++ "/" ++ (sanitizeFilename info.title ++ ".mp3")),
          some info.title, none, false⟩,
        [Effect.metaFetch videoId,
          Effect.existsCheck (outputDir ++ "/" ++ (sanitizeFilename info.title ++ ".mp3")),
          Effect.streamFetch videoId,
          Effect.transcode (outputDir ++ "/" ++ (sanitizeFilename info.title ++ ".mp3")),
          Effect.fileWrite
            (outputDir ++ "/" ++ (sanitizeFilename info.title ++ ".mp3"))]) := by
  unfold downloadMp3
  rw [hx]
  dsimp only
  unfold getVideoInfo
  rw [hm]
  dsimp only
  rw [hfs, henc]
  simp

/-- C6 counterexample: on an item whose output file already exists the
pipeline does return `Success{skipped:true}` and performs no stream fetch or
transcode, but it DOES perform a network fetch: `ytdl.getInfo` (the metadata
lookup needed to derive the filename) runs before the existence check, so
the effect list contains a network fetch, refuting the claim's "no network
fetch". -/
theorem c6_counterexample :
    (downloadMp3
        ⟨fun p => p == "./downloads/Song.mp3",
          fun vid => if vid == "AAAAAAAAAAA" then Except.ok ⟨"Song", 60, "Auth"⟩
            else Except.error "nope",
          fun _ _ => Except.ok ()⟩
        "./downloads" "https://www.youtube.com/watch?v=AAAAAAAAAAA" none).1 =
      Except.ok ⟨true, "Song.mp3", none, none, some "File already exists", true⟩ ∧
    (downloadMp3
        ⟨fun p => p == "./downloads/Song.mp3",
          fun vid => if vid == "AAAAAAAAAAA" then Except.ok ⟨"Song", 60, "Auth"⟩
            else Except.error "nope",
          fun _ _ => Except.ok ()⟩
        "./downloads" "https://www.youtube.com/watch?v=AAAAAAAAAAA" none).2 =
      [Effect.metaFetch "AAAAAAAAAAA", Effect.existsCheck "./downloads/Song.mp3"] ∧
    (downloadMp3
        ⟨fun p => p == "./downloads/Song.mp3",
          fun vid => if vid == "AAAAAAAAAAA" then Except.ok ⟨"Song", 60, "Auth"⟩
            else Except.error "nope",
          fun _ _ => Except.ok ()⟩
        "./downloads" "https://www.youtube.com/watch?v=AAAAAAAAAAA" none).2.any
      isNetworkFetch = true := by
  refine ⟨by decide, by decide, by decide⟩

/-- C6 (amended): when the output file already exists the pipeline returns
`Success{skipped:true}` and performs no stream fetch and no transcode (the
metadata network lookup still happens, before the existence check); and the
pipeline is idempotent: after a successful fresh run, re-running the same
item against the resulting filesystem yields `Success{skipped:true}` with no
stream fetch and no transcode on the second run. -/
theorem c6_skip_idempotent :
    (∀ (w : World) (outputDir url videoId : String) (info : RawInfo),
      extractVideoId url = some videoId →
      w.meta videoId = Except.ok info →
      w.fs (outputDir ++ "/" ++ (sanitizeFilename info.title ++ ".mp3")) = true →
        (downloadMp3 w outputDir url none).1 =
          Except.ok ⟨true, sanitizeFilename info.title ++ ".mp3", none, none,
            some "File already exists", true⟩ ∧
        (downloadMp3 w outputDir url none).2 =
          [Effect.metaFetch videoId,
            Effect.existsCheck
              (outputDir ++ "/" ++ (sanitizeFilename info.title ++ ".mp3"))] ∧
        (∀ ev ∈ (downloadMp3 w outputDir url none).2,
          isStreamOrTranscode ev = false)) ∧
    (∀ (w : World) (outputDir url videoId : String) (info : RawInfo),
      extractVideoId url = some videoId →
      w.meta videoId = Except.ok info →
      w.fs (outputDir ++ "/" ++ (sanitizeFilename info.title ++ ".mp3")) = false →
      w.encode videoId (outputDir ++ "/" ++ (sanitizeFilename info.title ++ ".mp3")) =
        Except.ok () →
        (downloadMp3 (worldAfter w (downloadMp3 w outputDir url none).2)
            outputDir url none).1 =
          Except.ok ⟨true, sanitizeFilename info.title ++ ".mp3", none, none,
            some "File already exists", true⟩ ∧
        (∀ ev ∈ (downloadMp3 (worldAfter w (downloadMp3 w outputDir url none).2)
            outputDir url none).2, isStreamOrTranscode ev = false)) := by
  constructor
  · intro w outputDir url videoId info hx hm hfs
    rw [downloadMp3_skip w outputDir url videoId info hx hm hfs]
    refine ⟨rfl, rfl, ?_⟩
    intro ev hev
    rcases List.mem_cons.mp hev with h | h
    · rw [h]; rfl
    · rcases List.mem_cons.mp h with h2 | h2
      · rw [h2]; rfl
      · exact absurd h2 (List.not_mem_nil ev)
  · intro w outputDir url videoId info hx hm hfs henc
    have h1 := downloadMp3_fresh w outputDir url videoId info hx hm hfs henc
    have hfs2 : (worldAfter w (downloadMp3 w outputDir url none).2).fs
        (outputDir ++ "/" ++ (sanitizeFilename info.title ++ ".mp3")) = true := by
      rw [h1]
      simp [worldAfter, writesPath]
    have h2 := downloadMp3_skip (worldAfter w (downloadMp3 w outputDir url none).2)
      outputDir url videoId info hx hm hfs2
    rw [h2]
    refine ⟨rfl, ?_⟩
    intro ev hev
    rcases List.mem_cons.mp hev with h | h
    · rw [h]; rfl
    · rcases List.mem_cons.mp h with h3 | h3
      · rw [h3]; rfl
      · exact absurd h3 (List.not_mem_nil ev)

theorem c6_skip_idempotent_witness :
    (downloadMp3
        ⟨fun p => p == "./downloads/Song.mp3",
          fun vid => if vid == "AAAAAAAAAAA" then Except.ok ⟨"Song", 60, "Auth"⟩
            else Except.error "nope",
          fun _ _ => Except.ok ()⟩
        "./downloads" "https://www.youtube.com/watch?v=AAAAAAAAAAA" none).1 =
      Except.ok ⟨true, sanitizeFilename "Song" ++ ".mp3", none, none,
        some "File already exists", true⟩ ∧
    (downloadMp3
        (worldAfter
          ⟨fun _ => false,
            fun vid => if vid == "AAAAAAAAAAA" then Except.ok ⟨"Song", 60, "Auth"⟩
              else Except.error "nope",
            fun _ _ => Except.ok ()⟩
          (downloadMp3
            ⟨fun _ => false,
              fun vid => if vid == "AAAAAAAAAAA" then Except.ok ⟨"Song", 60, "Auth"⟩
                else Except.error "nope",
              fun _ _ => Except.ok ()⟩
            "./downloads" "https://www.youtube.com/watch?v=AAAAAAAAAAA" none).2)
        "./downloads" "https://www.youtube.com/watch?v=AAAAAAAAAAA" none).1 =
      Except.ok ⟨true, sanitizeFilename "Song" ++ ".mp3", none, none,
        some "File already exists", true⟩ :=
  ⟨(c6_skip_idempotent.1
      ⟨fun p => p == "./downloads/Song.mp3",
        fun vid => if vid == "AAAAAAAAAAA" then Except.ok ⟨"Song", 60, "Auth"⟩
          else Except.error "nope",
        fun _ _ => Except.ok ()⟩
      "./downloads" "https://www.youtube.com/watch?v=AAAAAAAAAAA" "AAAAAAAAAAA"
      ⟨"Song", 60, "Auth"⟩ (by decide) (by decide) (by decide)).1,
    (c6_skip_idempotent.2
      ⟨fun _ => false,
        fun vid => if vid == "AAAAAAAAAAA" then Except.ok ⟨"Song", 60, "Auth"⟩
          else Except.error "nope",
        fun _ _ => Except.ok ()⟩
      "./downloads" "https://www.youtube.com/watch?v=AAAAAAAAAAA" "AAAAAAAAAAA"
      ⟨"Song", 60, "Auth"⟩ (by decide) (by decide) (by decide) (by decide)).1⟩

end YtDl
